import Mathlib

/-!
Verification of the trailer-based container format of `tutorial-maker`
(`src/src-tauri/src/lib.rs`).

The file models the V1 and V2 trailer codecs, the manifest (de)serialization
(`serde_json` on `BuildManifest` / `MediaManifestEntry`), and the format
dispatcher, as pure functions over byte lists.  A Rust `String` is modelled by
the list of its UTF-8 bytes; a file on disk is a `List Byte`.  `u64`
arithmetic that can wrap is modelled with explicit `% 2^64` (release-mode
semantics); file sizes are `u64` in the source, so they are below `2^64`.
-/

set_option maxRecDepth 20000

deriving instance DecidableEq for Except

namespace TutorialMaker

abbrev Byte := Fin 256

def byte (k : Nat) : Byte := ⟨k % 256, Nat.mod_lt _ (by decide)⟩

/-- UTF-8 bytes of an ASCII string literal (all literals used are ASCII). -/
def strB (s : String) : List Byte := s.data.map (fun c => byte c.toNat)

/-- `MAGIC_BYTES`: the V1 trailer marker (`b"TUTORIALMAKER_DATA_V1"`). -/
def MAGIC_BYTES : List Byte := strB "TUTORIALMAKER_DATA_V1"

/-- `MAGIC_BYTES_V2`: the V2 trailer marker (`b"TUTORIALMAKER_DATA_V2"`). -/
def MAGIC_BYTES_V2 : List Byte := strB "TUTORIALMAKER_DATA_V2"

/-- `u64::to_le_bytes`: little-endian 8-byte encoding (of `n % 2^64`). -/
def toLe64 (n : Nat) : List Byte :=
  [byte n, byte (n / 256), byte (n / 256 ^ 2), byte (n / 256 ^ 3),
   byte (n / 256 ^ 4), byte (n / 256 ^ 5), byte (n / 256 ^ 6), byte (n / 256 ^ 7)]

/-- `u64::from_le_bytes` on a byte buffer. -/
def fromLe64 (bs : List Byte) : Nat := bs.foldr (fun b acc => b.val + 256 * acc) 0

/-- `i64` reinterpretation of a `u64` value (used by `SeekFrom::End` offsets). -/
def i64ofU64 (n : Nat) : Int := if n < 2 ^ 63 then (n : Int) else (n : Int) - 2 ^ 64

/-- Mirror of `struct MediaManifestEntry` (strings as UTF-8 byte lists). -/
structure MediaManifestEntry where
  id : List Byte
  name : List Byte
  mime_type : List Byte
  offset : Nat
  size : Nat
deriving DecidableEq

/-- Mirror of `struct BuildManifest`. -/
structure BuildManifest where
  project_json_offset : Nat
  project_json_size : Nat
  media : List MediaManifestEntry
  app_icon_offset : Option Nat
  app_icon_size : Option Nat
deriving DecidableEq

/-- Mirror of `struct MediaBuildInfo` (frontend-supplied media descriptor). -/
structure MediaBuildInfo where
  id : List Byte
  name : List Byte
  mime_type : List Byte
  file_path : List Byte
deriving DecidableEq

/-- State of a media source path on disk: absent, present but unreadable
(e.g. permissions), or readable with the given content. -/
inductive SourceFile where
  | missing : SourceFile
  | unreadable : SourceFile
  | readable (content : List Byte) : SourceFile
deriving DecidableEq

/-- A filesystem of media sources: maps a path to its state. -/
abbrev MediaFS := List Byte → SourceFile

/-- `Path::exists()` on a media source. -/
def srcExists : SourceFile → Bool
  | .missing => false
  | _ => true

/-- Error outcomes, one constructor per distinct error site of the embedded
functions (the source returns `Err(String)` with a distinct message at each
site). -/
inductive Err where
  /-- seek before the start of the file ("파일 탐색 실패") -/
  | seekFailed
  /-- V1 marker mismatch ("내장된 프로젝트 데이터를 찾을 수 없습니다.") -/
  | v1MarkerMismatch
  /-- V2 marker mismatch ("V2 데이터 포맷이 아닙니다.") -/
  | v2MarkerMismatch
  /-- V1 payload read past end of file ("데이터 읽기 실패") -/
  | dataReadFailed
  /-- manifest read past end of file ("매니페스트 읽기 실패") -/
  | manifestReadFailed
  /-- manifest JSON deserialization failure ("매니페스트 파싱 실패") -/
  | manifestParseFailed
  /-- project JSON read past end of file ("프로젝트 데이터 읽기 실패") -/
  | projectReadFailed
  /-- `String::from_utf8` failure ("프로젝트 데이터 디코딩 실패") -/
  | utf8DecodeFailed
  /-- requested media id absent from manifest ("미디어를 찾을 수 없습니다") -/
  | assetNotFound
  /-- media blob read past end of file ("미디어 데이터 읽기 실패") -/
  | mediaReadFailed
  /-- no embedded data and no loose project.json ("프로젝트 데이터를 찾을 수 없습니다.") -/
  | noProjectData
  /-- loose project.json unreadable -/
  | looseReadFailed
  /-- `fs::read` failure on an existing media source ("미디어 파일 읽기 실패") -/
  | sourceReadFailed
  /-- Not an `Err(String)` of the source but a process panic: `vec![0u8; n]`
  with `n ≥ 2^63` (> `isize::MAX`) panics with "capacity overflow", in
  release builds too.  A panic unwinds through every caller, so no `Err(_)`
  match arm of the source ever observes it; the model propagates it
  unchanged through the dispatchers. -/
  | capacityOverflowPanic
deriving DecidableEq

/-- Spec taxonomy: `FormatNotFound` is a marker mismatch. -/
def isFormatNotFound : Err → Bool
  | .v1MarkerMismatch => true
  | .v2MarkerMismatch => true
  | _ => false

/-- Spec taxonomy: `CorruptFormat` is a manifest that exists but fails to
parse (the only such site in the source). -/
def isCorruptFormat : Err → Bool
  | .manifestParseFailed => true
  | _ => false

/-! ### `serde_json` serialization of the manifest

`serde_json::to_string` serializes a struct as a JSON object with the fields
in declaration order, `u64` fields in decimal, `Option` fields as `null` /
the value, and strings escaped byte-by-byte (`"`, `\`, and control bytes;
`\b \t \n \f \r` short forms, `\u00XX` with lowercase hex otherwise). -/

/-- Lowercase hex digit byte (serde_json's `\u00XX` escapes use lowercase). -/
def hexDigit (n : Nat) : Byte := if n < 10 then byte (48 + n) else byte (87 + n)

/-- serde_json's escaping of one string byte. -/
def escapeByte (b : Byte) : List Byte :=
  if b.val = 34 then [byte 92, byte 34]
  else if b.val = 92 then [byte 92, byte 92]
  else if b.val = 8 then [byte 92, byte 98]
  else if b.val = 9 then [byte 92, byte 116]
  else if b.val = 10 then [byte 92, byte 110]
  else if b.val = 12 then [byte 92, byte 102]
  else if b.val = 13 then [byte 92, byte 114]
  else if b.val < 32 then [byte 92, byte 117, byte 48, byte 48, hexDigit (b.val / 16), hexDigit (b.val % 16)]
  else [b]

def escBytes (s : List Byte) : List Byte := (s.map escapeByte).flatten

/-- A JSON string literal: `"` … escaped bytes … `"`. -/
def jsonString (s : List Byte) : List Byte := byte 34 :: escBytes s ++ [byte 34]

/-- Decimal digits of `n`, fuel-indexed so that the kernel can evaluate it. -/
def natDecAux : Nat → Nat → List Byte
  | 0, _ => []
  | fuel + 1, n =>
    if n < 10 then [byte (48 + n)] else natDecAux fuel (n / 10) ++ [byte (48 + n % 10)]

/-- Decimal representation of `n` (serde_json's `u64` serialization). -/
def natDec (n : Nat) : List Byte := natDecAux (n + 1) n

/-- serde_json serialization of an `Option<u64>` field value. -/
def serOptNat : Option Nat → List Byte
  | none => strB "null"
  | some n => natDec n

/-- Literal fragment of the serialized JSON (the object key tokens). -/
def litEntryOpen : List Byte := [byte 123] ++ strB "\"id\":"

def litName : List Byte := strB ",\"name\":"

def litMime : List Byte := strB ",\"mime_type\":"

def litOffset : List Byte := strB ",\"offset\":"

def litSize : List Byte := strB ",\"size\":"

def litManOpen : List Byte := [byte 123] ++ strB "\"project_json_offset\":"

def litPjs : List Byte := strB ",\"project_json_size\":"

def litMediaOpen : List Byte := strB ",\"media\":["

def litAio : List Byte := strB ",\"app_icon_offset\":"

def litAis : List Byte := strB ",\"app_icon_size\":"

/-- serde_json serialization of one `MediaManifestEntry`. -/
def serializeEntry (e : MediaManifestEntry) : List Byte :=
  litEntryOpen ++ jsonString e.id
  ++ litName ++ jsonString e.name
  ++ litMime ++ jsonString e.mime_type
  ++ litOffset ++ natDec e.offset
  ++ litSize ++ natDec e.size
  ++ [byte 125]

/-- The serialized `media` array after its opening `[`: the entries, comma
separated, then the closing `]` (exactly how serde_json writes a `Vec`). -/
def entriesTail : List MediaManifestEntry → List Byte
  | [] => [byte 93]
  | e :: es => strB "," ++ serializeEntry e ++ entriesTail es

def entriesBody : List MediaManifestEntry → List Byte
  | [] => [byte 93]
  | e :: es => serializeEntry e ++ entriesTail es

/-- serde_json serialization of a `BuildManifest`
(`serde_json::to_string(&manifest)` as UTF-8 bytes). -/
def serializeManifest (m : BuildManifest) : List Byte :=
  litManOpen ++ natDec m.project_json_offset
  ++ litPjs ++ natDec m.project_json_size
  ++ litMediaOpen ++ entriesBody m.media
  ++ litAio ++ serOptNat m.app_icon_offset
  ++ litAis ++ serOptNat m.app_icon_size
  ++ [byte 125]

/-! ### Deserialization (`serde_json::from_slice::<BuildManifest>`)

Modelled as a recursive-descent parser for the canonical serialization above;
it fails on anything else, in particular on every input on which serde_json
itself fails that is used in a theorem below. -/

def isDigit (b : Byte) : Bool := 48 ≤ b.val && b.val ≤ 57

def digitsVal (ds : List Byte) : Nat := ds.foldl (fun a b => a * 10 + (b.val - 48)) 0

/-- Parse a nonempty run of decimal digits. -/
def parseNat (input : List Byte) : Option (Nat × List Byte) :=
  let ds := input.takeWhile isDigit
  if ds.isEmpty then none else some (digitsVal ds, input.dropWhile isDigit)

/-- Parse a decimal number that must fit in `u64` (serde rejects larger). -/
def parseU64 (input : List Byte) : Option (Nat × List Byte) :=
  (parseNat input).bind fun p => if p.1 < 2 ^ 64 then some p else none

/-- Expect a literal byte sequence. -/
def parseLit (lit input : List Byte) : Option (List Byte) :=
  if input.take lit.length = lit then some (input.drop lit.length) else none

def hexVal (b : Byte) : Option Nat :=
  if 48 ≤ b.val && b.val ≤ 57 then some (b.val - 48)
  else if 97 ≤ b.val && b.val ≤ 102 then some (b.val - 87)
  else if 65 ≤ b.val && b.val ≤ 70 then some (b.val - 55) else none

/-- Parse a JSON string body up to (and consuming) the closing quote. -/
def parseStrBody : List Byte → Option (List Byte × List Byte)
  | [] => none
  | b :: rest =>
    if b.val = 34 then some ([], rest)
    else if b.val = 92 then
      match rest with
      | [] => none
      | e :: rest2 =>
        if e.val = 34 then (parseStrBody rest2).map fun p => (byte 34 :: p.1, p.2)
        else if e.val = 92 then (parseStrBody rest2).map fun p => (byte 92 :: p.1, p.2)
        else if e.val = 98 then (parseStrBody rest2).map fun p => (byte 8 :: p.1, p.2)
        else if e.val = 116 then (parseStrBody rest2).map fun p => (byte 9 :: p.1, p.2)
        else if e.val = 110 then (parseStrBody rest2).map fun p => (byte 10 :: p.1, p.2)
        else if e.val = 102 then (parseStrBody rest2).map fun p => (byte 12 :: p.1, p.2)
        else if e.val = 114 then (parseStrBody rest2).map fun p => (byte 13 :: p.1, p.2)
        else if e.val = 117 then
          match rest2 with
          | h1 :: h2 :: h3 :: h4 :: rest3 =>
            match hexVal h1, hexVal h2, hexVal h3, hexVal h4 with
            | some v1, some v2, some v3, some v4 =>
              (parseStrBody rest3).map fun p => (byte (((v1 * 16 + v2) * 16 + v3) * 16 + v4) :: p.1, p.2)
            | _, _, _, _ => none
          | _ => none
        else none
    else (parseStrBody rest).map fun p => (b :: p.1, p.2)

/-- Parse a JSON string literal (opening quote, body, closing quote). -/
def parseJString (input : List Byte) : Option (List Byte × List Byte) :=
  (parseLit [byte 34] input).bind parseStrBody

/-- Parse `null` or a `u64` (an `Option<u64>` field). -/
def parseOptU64 (input : List Byte) : Option (Option Nat × List Byte) :=
  if input.take 4 = strB "null" then some (none, input.drop 4)
  else (parseU64 input).map fun p => (some p.1, p.2)

/-- Parse one serialized `MediaManifestEntry`. -/
def parseEntry (input : List Byte) : Option (MediaManifestEntry × List Byte) := do
  let r0 ← parseLit litEntryOpen input
  let (idv, r1) ← parseJString r0
  let r2 ← parseLit litName r1
  let (namev, r3) ← parseJString r2
  let r4 ← parseLit litMime r3
  let (mimev, r5) ← parseJString r4
  let r6 ← parseLit litOffset r5
  let (offv, r7) ← parseU64 r6
  let r8 ← parseLit litSize r7
  let (sizev, r9) ← parseU64 r8
  let r10 ← parseLit [byte 125] r9
  some (⟨idv, namev, mimev, offv, sizev⟩, r10)

/-- Parse the tail of the `media` array: `,entry,entry…]` or `]`. -/
def parseEntriesTail : Nat → List Byte → Option (List MediaManifestEntry × List Byte)
  | 0, _ => none
  | fuel + 1, input =>
    match input with
    | [] => none
    | c :: r =>
      if c.val = 93 then some ([], r)
      else if c.val = 44 then do
        let (e, r2) ← parseEntry r
        let (es, r3) ← parseEntriesTail fuel r2
        some (e :: es, r3)
      else none

/-- Parse the `media` array after its opening `[`: either the array ends
immediately with `]`, or a first entry follows, then the comma-separated
tail. -/
def parseEntries (fuel : Nat) (input : List Byte) : Option (List MediaManifestEntry × List Byte) :=
  match parseEntry input with
  | some (e, r2) => (parseEntriesTail fuel r2).map fun p => (e :: p.1, p.2)
  | none => (parseLit [byte 93] input).map fun r => ([], r)

/-- Model of `serde_json::from_slice::<BuildManifest>`: parses exactly the
canonical serialization, requiring the whole input to be consumed. -/
def deserializeManifest (input : List Byte) : Option BuildManifest := do
  let r0 ← parseLit litManOpen input
  let (pjo, r1) ← parseU64 r0
  let r2 ← parseLit litPjs r1
  let (pjs, r3) ← parseU64 r2
  let r4 ← parseLit litMediaOpen r3
  let (es, r5) ← parseEntries input.length r4
  let r6 ← parseLit litAio r5
  let (aio, r7) ← parseOptU64 r6
  let r8 ← parseLit litAis r7
  let (ais, r9) ← parseOptU64 r8
  let r10 ← parseLit [byte 125] r9
  if r10 = [] then some ⟨pjo, pjs, es, aio, ais⟩ else none

/-! ### UTF-8 validation (`String::from_utf8` / `fs::read_to_string`) -/

def isCont (b : Byte) : Bool := 128 ≤ b.val && b.val ≤ 191

/-- UTF-8 validity check, mirroring the standard validation (overlong and
surrogate encodings rejected). -/
def isValidUtf8 : List Byte → Bool
  | [] => true
  | b :: rest =>
    if b.val ≤ 127 then isValidUtf8 rest
    else if 194 ≤ b.val && b.val ≤ 223 then
      match rest with
      | c :: r => isCont c && isValidUtf8 r
      | [] => false
    else if b.val = 224 then
      match rest with
      | c1 :: c2 :: r => (160 ≤ c1.val && c1.val ≤ 191) && isCont c2 && isValidUtf8 r
      | _ => false
    else if (225 ≤ b.val && b.val ≤ 236) || b.val = 238 || b.val = 239 then
      match rest with
      | c1 :: c2 :: r => isCont c1 && isCont c2 && isValidUtf8 r
      | _ => false
    else if b.val = 237 then
      match rest with
      | c1 :: c2 :: r => (128 ≤ c1.val && c1.val ≤ 159) && isCont c2 && isValidUtf8 r
      | _ => false
    else if b.val = 240 then
      match rest with
      | c1 :: c2 :: c3 :: r => (144 ≤ c1.val && c1.val ≤ 191) && isCont c2 && isCont c3 && isValidUtf8 r
      | _ => false
    else if 241 ≤ b.val && b.val ≤ 243 then
      match rest with
      | c1 :: c2 :: c3 :: r => isCont c1 && isCont c2 && isCont c3 && isValidUtf8 r
      | _ => false
    else if b.val = 244 then
      match rest with
      | c1 :: c2 :: c3 :: r => (128 ≤ c1.val && c1.val ≤ 143) && isCont c2 && isCont c3 && isValidUtf8 r
      | _ => false
    else false

/-! ### The embedded functions of `lib.rs` -/

/-- `append_data_to_exe` (V1 writer): append payload, its length as 8-byte
little-endian, then the V1 marker. -/
def append_data_to_exe (file data : List Byte) : List Byte :=
  file ++ data ++ toLe64 data.length ++ MAGIC_BYTES

/-- `read_data_from_exe` (V1 reader, release-mode `u64` wrap semantics).
Seeks 21 bytes from the end, compares the marker, reads the 8-byte length,
computes `data_start = file_size - magic_len - 8 - data_len` in wrapping
`u64` arithmetic (the source has no underflow check), then, in source
order:
* `seek(SeekFrom::Start(data_start))` — the OS seek primitive
  (`lseek64` / `SetFilePointerEx`) takes the offset as `i64`, so a start
  with the top bit set (`≥ 2^63`) fails at the seek error site;
* `vec![0u8; data_len as usize]` — panics with "capacity overflow" when
  `data_len` exceeds `isize::MAX` (i.e. `≥ 2^63`), in release builds too;
  smaller allocations (at most `2^63 - 1` bytes here) are assumed to
  succeed;
* `read_exact` — fails when fewer than `data_len` bytes remain. -/
def read_data_from_exe (file : List Byte) : Except Err (List Byte) :=
  let fileSize := file.length
  if fileSize < MAGIC_BYTES.length then .error .seekFailed
  else if file.drop (fileSize - MAGIC_BYTES.length) ≠ MAGIC_BYTES then .error .v1MarkerMismatch
  else if fileSize < MAGIC_BYTES.length + 8 then .error .seekFailed
  else
    let dataLen := fromLe64 ((file.drop (fileSize - MAGIC_BYTES.length - 8)).take 8)
    let dataStart := (fileSize - MAGIC_BYTES.length - 8 + (2 ^ 64 - dataLen % 2 ^ 64)) % 2 ^ 64
    if 2 ^ 63 ≤ dataStart then .error .seekFailed
    else if 2 ^ 63 ≤ dataLen then .error .capacityOverflowPanic
    else if dataStart + dataLen ≤ fileSize then .ok ((file.drop dataStart).take dataLen)
    else .error .dataReadFailed

/-- The media-append loop of `append_binary_data_v2`: returns the bytes it
appended together with either the manifest entries and the final
`current_offset`, or the error that stopped it (an existing but unreadable
source; missing sources are skipped). -/
def appendMediaLoop (fs : MediaFS) : List MediaBuildInfo → Nat → List Byte × Except Err (List MediaManifestEntry × Nat)
  | [], off => ([], .ok ([], off))
  | m :: rest, off =>
    match fs m.file_path with
    | .missing => appendMediaLoop fs rest off
    | .unreadable => ([], .error .sourceReadFailed)
    | .readable c =>
      let p := appendMediaLoop fs rest (off + c.length)
      (c ++ p.1, p.2.map fun q => (⟨m.id, m.name, m.mime_type, off, c.length⟩ :: q.1, q.2))

/-- `append_binary_data_v2` (V2 writer): appends every readable media blob,
then the project JSON, the serialized manifest, the manifest length as
8-byte little-endian, and the V2 marker.  Returns the operation's result
together with the file content afterwards (on error, the bytes already
appended remain — the file handle is in append mode). -/
def append_binary_data_v2 (fs : MediaFS) (orig project_json : List Byte) (media_files : List MediaBuildInfo) : Except Err Unit × List Byte :=
  let p := appendMediaLoop fs media_files orig.length
  match p.2 with
  | .error e => (.error e, orig ++ p.1)
  | .ok (entries, off) =>
    let manifest : BuildManifest := ⟨off, project_json.length, entries, none, none⟩
    let mj := serializeManifest manifest
    (.ok (), orig ++ p.1 ++ project_json ++ mj ++ toLe64 mj.length ++ MAGIC_BYTES_V2)

/-- The `BuildManifest` value that `append_binary_data_v2` serializes into
the file (projection of the same loop; `none` when the write fails). -/
def writtenManifest (fs : MediaFS) (orig project_json : List Byte) (media_files : List MediaBuildInfo) : Option BuildManifest :=
  match (appendMediaLoop fs media_files orig.length).2 with
  | .ok (entries, off) => some ⟨off, project_json.length, entries, none, none⟩
  | .error _ => none

/-- `read_manifest_from_exe` (V2 manifest reader): marker at the end, 8-byte
length before it, manifest JSON before that (seek offset computed in `i64`),
deserialized with serde_json. -/
def read_manifest_from_exe (file : List Byte) : Except Err BuildManifest :=
  let fileSize := file.length
  if fileSize < MAGIC_BYTES_V2.length then .error .seekFailed
  else if file.drop (fileSize - MAGIC_BYTES_V2.length) ≠ MAGIC_BYTES_V2 then .error .v2MarkerMismatch
  else if fileSize < MAGIC_BYTES_V2.length + 8 then .error .seekFailed
  else
    let manifestSize := fromLe64 ((file.drop (fileSize - MAGIC_BYTES_V2.length - 8)).take 8)
    let seekTarget : Int := (fileSize : Int) - (MAGIC_BYTES_V2.length : Int) - 8 - i64ofU64 manifestSize
    if seekTarget < 0 then .error .seekFailed
    else if seekTarget.toNat + manifestSize ≤ fileSize then
      match deserializeManifest ((file.drop seekTarget.toNat).take manifestSize) with
      | some man => .ok man
      | none => .error .manifestParseFailed
    else .error .manifestReadFailed

/-- `read_project_file` (V1 dispatcher): try the V1 trailer; on any `Err`
fall back to the loose sibling `project.json` (`none` = absent).  A panic
inside `read_data_from_exe` unwinds through this function — the source's
`Err(_)` arm only ever observes real `Err` values — so the panic outcome is
propagated, never turned into a fallback. -/
def read_project_file (exe : List Byte) (loose : Option (List Byte)) : Except Err (List Byte) :=
  match read_data_from_exe exe with
  | .ok data => if isValidUtf8 data then .ok data else .error .utf8DecodeFailed
  | .error .capacityOverflowPanic => .error .capacityOverflowPanic
  | .error _ =>
    match loose with
    | none => .error .noProjectData
    | some content => if isValidUtf8 content then .ok content else .error .looseReadFailed

/-- `read_project_file_v2` (format dispatcher): try the V2 manifest; on
success read the project JSON byte range; on any error fall back to
`read_project_file`. -/
def read_project_file_v2 (exe : List Byte) (loose : Option (List Byte)) : Except Err (List Byte) :=
  match read_manifest_from_exe exe with
  | .ok manifest =>
    if manifest.project_json_offset + manifest.project_json_size ≤ exe.length then
      let buf := (exe.drop manifest.project_json_offset).take manifest.project_json_size
      if isValidUtf8 buf then .ok buf else .error .utf8DecodeFailed
    else .error .projectReadFailed
  | .error _ => read_project_file exe loose

/-- `read_embedded_media`: read the manifest (errors propagate), find the
first entry with the requested id, read its byte range. -/
def read_embedded_media (exe : List Byte) (media_id : List Byte) : Except Err (List Byte) :=
  match read_manifest_from_exe exe with
  | .error e => .error e
  | .ok manifest =>
    match manifest.media.find? (fun m => decide (m.id = media_id)) with
    | none => .error .assetNotFound
    | some entry =>
      if entry.offset + entry.size ≤ exe.length then .ok ((exe.drop entry.offset).take entry.size)
      else .error .mediaReadFailed

/-- Contiguity of manifest entries: starting at `start`, each entry's offset
is the running offset and `offset + size` is the next entry's offset, ending
exactly at `fin`. -/
def chainedB (start : Nat) : List MediaManifestEntry → Nat → Bool
  | [], fin => decide (start = fin)
  | e :: rest, fin => decide (e.offset = start) && chainedB (start + e.size) rest fin

/-! ### Basic lemmas -/

theorem byte_val (k : Nat) : (byte k).val = k % 256 := rfl

theorem byte_val_lt (k : Nat) (h : k < 256) : (byte k).val = k := by
  simp [byte_val, Nat.mod_eq_of_lt h]

theorem byte_eta (b : Byte) : byte b.val = b := by
  apply Fin.ext
  simp [byte_val, Nat.mod_eq_of_lt b.isLt]

theorem toLe64_length (n : Nat) : (toLe64 n).length = 8 := rfl

theorem magic_length : MAGIC_BYTES.length = 21 := rfl

theorem magic_v2_length : MAGIC_BYTES_V2.length = 21 := rfl

theorem fromLe64_toLe64 (n : Nat) (h : n < 2 ^ 64) : fromLe64 (toLe64 n) = n := by
  have h256 : (256 : Nat) ^ 2 = 65536 := by norm_num
  simp only [fromLe64, toLe64, List.foldr, byte_val]
  norm_num
  omega

theorem fromLe64_lt_pow (bs : List Byte) : fromLe64 bs < 256 ^ bs.length := by
  induction bs with
  | nil => simp [fromLe64]
  | cons b t ih =>
    simp only [fromLe64, List.foldr, List.length_cons, pow_succ] at *
    have := b.isLt
    omega

theorem fromLe64_lt (bs : List Byte) (h : bs.length ≤ 8) : fromLe64 bs < 2 ^ 64 := by
  have h1 := fromLe64_lt_pow bs
  have h2 : (256 : Nat) ^ bs.length ≤ 256 ^ 8 := Nat.pow_le_pow_right (by norm_num) h
  have h3 : (256 : Nat) ^ 8 = 2 ^ 64 := by norm_num
  omega

theorem drop_append_right {α : Type} (A B : List α) (k : Nat) (h : A.length ≤ k) :
    (A ++ B).drop k = B.drop (k - A.length) := by
  conv_lhs => rw [show k = A.length + (k - A.length) by omega]
  rw [List.drop_append]

/-- A slice that lies inside the left part of an append. -/
theorem slice_append_left {α : Type} (A B : List α) (off len : Nat) (h : off + len ≤ A.length) :
    ((A ++ B).drop off).take len = (A.drop off).take len := by
  rw [List.drop_append_of_le_length (by omega)]
  rw [List.take_append_of_le_length]
  simp
  omega

/-- Extracting the middle component of `P ++ (B ++ S)` at its exact range. -/
theorem slice_middle {α : Type} (P B S : List α) :
    ((P ++ (B ++ S)).drop P.length).take B.length = B := by
  rw [List.drop_left, List.take_left]

/-! ### Decimal digits -/

def headNotDigit : List Byte → Bool
  | [] => true
  | c :: _ => !isDigit c

theorem natDecAux_digits : ∀ fuel n, n < fuel → ∀ b ∈ natDecAux fuel n, isDigit b = true := by
  intro fuel
  induction fuel with
  | zero => intro n h; omega
  | succ f ih =>
    intro n _ b hb
    rw [natDecAux] at hb
    split at hb
    · rename_i h10
      simp at hb
      subst hb
      simp [isDigit, byte_val_lt _ (by omega : 48 + n < 256)]
      omega
    · rename_i h10
      simp at hb
      rcases hb with hb | hb
      · exact ih (n / 10) (by omega) b hb
      · subst hb
        have hm : n % 10 < 10 := Nat.mod_lt _ (by norm_num)
        simp [isDigit, byte_val_lt _ (by omega : 48 + n % 10 < 256)]
        omega

theorem natDecAux_ne_nil (fuel n : Nat) (h : n < fuel) : natDecAux fuel n ≠ [] := by
  cases fuel with
  | zero => omega
  | succ f =>
    rw [natDecAux]
    split <;> simp

theorem natDecAux_foldl : ∀ fuel n a, n < fuel →
    (natDecAux fuel n).foldl (fun acc b => acc * 10 + (b.val - 48)) a
      = a * 10 ^ (natDecAux fuel n).length + n := by
  intro fuel
  induction fuel with
  | zero => intro n a h; omega
  | succ f ih =>
    intro n a _
    rw [natDecAux]
    split
    · rename_i h10
      simp [byte_val_lt _ (by omega : 48 + n < 256)]
    · rename_i h10
      rw [List.foldl_append, ih (n / 10) a (by omega)]
      have hm : n % 10 < 10 := Nat.mod_lt _ (by norm_num)
      simp only [List.foldl_cons, List.foldl_nil, List.length_append, List.length_cons,
        List.length_nil, byte_val_lt _ (by omega : 48 + n % 10 < 256), pow_succ]
      have hp : (0 : Nat) < 10 ^ (natDecAux f (n / 10)).length := Nat.pos_pow_of_pos _ (by norm_num)
      set L := (natDecAux f (n / 10)).length
      ring_nf
      omega

theorem takeWhile_append_all {p : Byte → Bool} (ds rest : List Byte)
    (hds : ∀ b ∈ ds, p b = true)
    (hrest : ∀ c t, rest = c :: t → p c = false) :
    (ds ++ rest).takeWhile p = ds ∧ (ds ++ rest).dropWhile p = rest := by
  induction ds with
  | nil =>
    simp only [List.nil_append]
    cases rest with
    | nil => simp
    | cons c t =>
      have hc := hrest c t rfl
      simp [List.takeWhile, List.dropWhile, hc]
  | cons d ds ih =>
    have hd : p d = true := hds d (by simp)
    have ⟨h1, h2⟩ := ih (fun b hb => hds b (by simp [hb]))
    simp [List.takeWhile, List.dropWhile, hd, h1, h2]

theorem parseNat_append (v : Nat) (rest : List Byte) (hrest : headNotDigit rest = true) :
    parseNat (natDec v ++ rest) = some (v, rest) := by
  have hv : v < v + 1 := by omega
  have hall := natDecAux_digits (v + 1) v hv
  have hne := natDecAux_ne_nil (v + 1) v hv
  have hrest' : ∀ c t, rest = c :: t → isDigit c = false := by
    intro c t hct
    subst hct
    simpa [headNotDigit] using hrest
  have ⟨h1, h2⟩ := takeWhile_append_all (p := isDigit) (natDec v) rest hall hrest'
  rw [parseNat]
  simp only [natDec] at *
  rw [h1, h2]
  simp only [List.isEmpty_iff, digitsVal]
  rw [if_neg hne]
  rw [natDecAux_foldl (v + 1) v 0 hv]
  simp

theorem parseU64_append (v : Nat) (rest : List Byte) (hv : v < 2 ^ 64)
    (hrest : headNotDigit rest = true) :
    parseU64 (natDec v ++ rest) = some (v, rest) := by
  rw [parseU64, parseNat_append v rest hrest]
  simp only [Option.bind_eq_bind, Option.some_bind]
  rw [if_pos (show ((v, rest).1 < 2 ^ 64) from hv)]

theorem parseLit_append (lit rest : List Byte) : parseLit lit (lit ++ rest) = some rest := by
  rw [parseLit, List.take_left, List.drop_left, if_pos rfl]

theorem parseLit_self (lit : List Byte) : parseLit lit lit = some [] := by
  have := parseLit_append lit []
  simpa using this

/-! ### String escaping inversion -/

theorem hexVal_hexDigit (n : Nat) (h : n < 16) : hexVal (hexDigit n) = some n := by
  revert h
  revert n
  decide

theorem parseStrBody_escapeByte (b : Byte) (t : List Byte) :
    parseStrBody (escapeByte b ++ t) = (parseStrBody t).map fun p => (b :: p.1, p.2) := by
  have h256 := b.isLt
  rw [escapeByte]
  split_ifs with h1 h2 h3 h4 h5 h6 h7 h8
  · have hb : byte 34 = b := by apply Fin.ext; simp [byte_val]; omega
    rw [← hb, parseStrBody.eq_def]
    simp [byte_val]
  · have hb : byte 92 = b := by apply Fin.ext; simp [byte_val]; omega
    rw [← hb, parseStrBody.eq_def]
    simp [byte_val]
  · have hb : byte 8 = b := by apply Fin.ext; simp [byte_val]; omega
    rw [← hb, parseStrBody.eq_def]
    simp [byte_val]
  · have hb : byte 9 = b := by apply Fin.ext; simp [byte_val]; omega
    rw [← hb, parseStrBody.eq_def]
    simp [byte_val]
  · have hb : byte 10 = b := by apply Fin.ext; simp [byte_val]; omega
    rw [← hb, parseStrBody.eq_def]
    simp [byte_val]
  · have hb : byte 12 = b := by apply Fin.ext; simp [byte_val]; omega
    rw [← hb, parseStrBody.eq_def]
    simp [byte_val]
  · have hb : byte 13 = b := by apply Fin.ext; simp [byte_val]; omega
    rw [← hb, parseStrBody.eq_def]
    simp [byte_val]
  · have h48 : hexVal (byte 48) = some 0 := by decide
    rw [parseStrBody.eq_def]
    simp [byte_val, h48, hexVal_hexDigit _ (show b.val / 16 < 16 by omega),
      hexVal_hexDigit _ (show b.val % 16 < 16 by omega)]
    have h16 : b.val / 16 * 16 + b.val % 16 = b.val := by omega
    simp [h16, byte_eta]
  · rw [parseStrBody.eq_def]
    simp [h1, h2]

theorem parseStrBody_inv (s rest : List Byte) :
    parseStrBody (escBytes s ++ (byte 34 :: rest)) = some (s, rest) := by
  induction s with
  | nil =>
    simp only [escBytes, List.map_nil, List.flatten_nil, List.nil_append]
    rw [parseStrBody.eq_def]
    simp [byte_val]
  | cons b s ih =>
    have : escBytes (b :: s) = escapeByte b ++ escBytes s := by
      simp [escBytes]
    rw [this, List.append_assoc, parseStrBody_escapeByte, ih]
    rfl

theorem parseJString_append (s rest : List Byte) :
    parseJString (jsonString s ++ rest) = some (s, rest) := by
  have h : jsonString s ++ rest = [byte 34] ++ (escBytes s ++ (byte 34 :: rest)) := by
    simp [jsonString]
  rw [h, parseJString, parseLit_append]
  exact parseStrBody_inv s rest

/-! ### Entry and manifest parse inversion -/

def entryBounds (e : MediaManifestEntry) : Prop := e.offset < 2 ^ 64 ∧ e.size < 2 ^ 64

theorem parseEntry_append (e : MediaManifestEntry) (rest : List Byte)
    (ho : e.offset < 2 ^ 64) (hs : e.size < 2 ^ 64) :
    parseEntry (serializeEntry e ++ rest) = some (e, rest) := by
  have hassoc : serializeEntry e ++ rest
      = litEntryOpen ++ (jsonString e.id ++ (litName ++ (jsonString e.name ++ (litMime ++
        (jsonString e.mime_type ++ (litOffset ++ (natDec e.offset ++ (litSize ++
        (natDec e.size ++ ([byte 125] ++ rest)))))))))) := by
    simp [serializeEntry]
  have hnd1 : headNotDigit (litSize ++ (natDec e.size ++ ([byte 125] ++ rest))) = true := rfl
  have hnd2 : headNotDigit ([byte 125] ++ rest) = true := rfl
  have hu1 := parseU64_append e.offset _ ho hnd1
  have hu2 := parseU64_append e.size _ hs hnd2
  rw [parseEntry, hassoc, parseLit_append]
  simp only [Option.bind_eq_bind, Option.some_bind, parseJString_append, parseLit_append,
    hu1, hu2]

theorem parseLit_head_ne (lit input : List Byte) (c d : Byte)
    (hl : lit.head? = some c) (hi : input.head? = some d) (h : c ≠ d) :
    parseLit lit input = none := by
  cases lit with
  | nil => simp at hl
  | cons x xs =>
    cases input with
    | nil => simp at hi
    | cons y ys =>
      simp at hl hi
      subst hl hi
      rw [parseLit]
      rw [if_neg]
      intro hcontra
      simp [List.take] at hcontra
      exact h hcontra.1.symm

theorem parseEntriesTail_append (es : List MediaManifestEntry) (rest : List Byte)
    (fuel : Nat) (hb : ∀ e ∈ es, entryBounds e) (hfuel : es.length < fuel) :
    parseEntriesTail fuel (entriesTail es ++ rest) = some (es, rest) := by
  induction es generalizing fuel rest with
  | nil =>
    cases fuel with
    | zero => omega
    | succ f =>
      simp [entriesTail, parseEntriesTail, byte_val]
  | cons e es ih =>
    cases fuel with
    | zero => omega
    | succ f =>
      have he := hb e (by simp)
      have hassoc : entriesTail (e :: es) ++ rest
          = byte 44 :: (serializeEntry e ++ (entriesTail es ++ rest)) := by
        simp [entriesTail, show strB "," = [byte 44] from rfl]
      rw [hassoc, parseEntriesTail]
      norm_num [byte_val]
      simp only [Option.bind_eq_bind, Option.some_bind,
        parseEntry_append e _ he.1 he.2,
        ih _ _ (fun x hx => hb x (by simp [hx])) (by simpa using hfuel)]

theorem parseEntries_append (es : List MediaManifestEntry) (rest : List Byte)
    (fuel : Nat) (hb : ∀ e ∈ es, entryBounds e) (hfuel : es.length ≤ fuel) :
    parseEntries fuel (entriesBody es ++ rest) = some (es, rest) := by
  cases es with
  | nil =>
    have hfail : parseEntry (entriesBody [] ++ rest) = none := by
      rw [parseEntry]
      rw [parseLit_head_ne litEntryOpen _ (byte 123) (byte 93) rfl (by simp [entriesBody]) (by decide)]
      rfl
    rw [parseEntries, hfail]
    have : entriesBody [] ++ rest = [byte 93] ++ rest := by simp [entriesBody]
    rw [this, parseLit_append]
    rfl
  | cons e es =>
    have he := hb e (by simp)
    have hassoc : entriesBody (e :: es) ++ rest
        = serializeEntry e ++ (entriesTail es ++ rest) := by
      simp [entriesBody]
    have htail := parseEntriesTail_append es rest fuel (fun x hx => hb x (by simp [hx]))
      (by simpa using hfuel)
    rw [parseEntries, hassoc, parseEntry_append e _ he.1 he.2]
    simp [htail]

theorem parseOptU64_null (t : List Byte) : parseOptU64 (strB "null" ++ t) = some (none, t) := rfl

theorem entriesTail_length (es : List MediaManifestEntry) :
    es.length + 1 ≤ (entriesTail es).length := by
  induction es with
  | nil => simp [entriesTail]
  | cons e es ih =>
    have hc : (strB ",").length = 1 := rfl
    simp only [entriesTail, List.length_append, List.length_cons]
    omega

theorem entriesBody_length (es : List MediaManifestEntry) :
    es.length ≤ (entriesBody es).length := by
  cases es with
  | nil => simp [entriesBody]
  | cons e es =>
    have := entriesTail_length es
    simp only [entriesBody, List.length_append, List.length_cons]
    omega

theorem media_length_le_serialized (m : BuildManifest) :
    m.media.length ≤ (serializeManifest m).length := by
  have h1 := entriesBody_length m.media
  simp only [serializeManifest, List.length_append]
  omega

theorem deserializeManifest_serializeManifest (m : BuildManifest)
    (h1 : m.project_json_offset < 2 ^ 64) (h2 : m.project_json_size < 2 ^ 64)
    (h3 : ∀ e ∈ m.media, entryBounds e)
    (h4 : m.app_icon_offset = none) (h5 : m.app_icon_size = none) :
    deserializeManifest (serializeManifest m) = some m := by
  obtain ⟨pjo, pjs, med, aio, ais⟩ := m
  simp only at h1 h2 h3 h4 h5
  subst h4 h5
  have hassoc : serializeManifest ⟨pjo, pjs, med, none, none⟩
      = litManOpen ++ (natDec pjo ++ (litPjs ++ (natDec pjs ++ (litMediaOpen ++
        (entriesBody med ++ (litAio ++ (strB "null" ++ (litAis ++
        (strB "null" ++ [byte 125]))))))))) := by
    simp [serializeManifest, serOptNat]
  have hnd1 : headNotDigit (litPjs ++ (natDec pjs ++ (litMediaOpen ++
      (entriesBody med ++ (litAio ++ (strB "null" ++ (litAis ++
      (strB "null" ++ [byte 125])))))))) = true := rfl
  have hnd2 : headNotDigit (litMediaOpen ++ (entriesBody med ++ (litAio ++
      (strB "null" ++ (litAis ++ (strB "null" ++ [byte 125])))))) = true := rfl
  have hu1 := parseU64_append pjo _ h1 hnd1
  have hu2 := parseU64_append pjs _ h2 hnd2
  have hfuel : med.length ≤ (serializeManifest ⟨pjo, pjs, med, none, none⟩).length :=
    media_length_le_serialized ⟨pjo, pjs, med, none, none⟩
  rw [hassoc] at hfuel
  have hes := parseEntries_append med
    (litAio ++ (strB "null" ++ (litAis ++ (strB "null" ++ [byte 125])))) _ h3 hfuel
  rw [hassoc, deserializeManifest, parseLit_append]
  simp only [Option.bind_eq_bind, Option.some_bind, hu1, hu2, parseLit_append, hes,
    parseOptU64_null, parseLit_self]
  rfl

/-! ### Reading back a well-formed V2 trailer -/

theorem drop_tail_exact {a : Type} (A B : List a) (k : Nat) (h : B.length = k) :
    (A ++ B).drop ((A ++ B).length - k) = B := by
  have hc : (A ++ B).length - k = A.length := by
    simp only [List.length_append]
    omega
  rw [hc]
  exact List.drop_left _ _

theorem window_before_tail {a : Type} (A B C : List a) (hB : B.length = 8) :
    ((A ++ B ++ C).drop ((A ++ B ++ C).length - C.length - 8)).take 8 = B := by
  have h1 : A ++ B ++ C = A ++ (B ++ C) := by simp
  have h2 : (A ++ B ++ C).length - C.length - 8 = A.length := by
    simp only [List.length_append]
    omega
  rw [h2, h1, List.drop_left, List.take_left' hB]

theorem read_manifest_append (P : List Byte) (man : BuildManifest)
    (hb1 : man.project_json_offset < 2 ^ 64) (hb2 : man.project_json_size < 2 ^ 64)
    (hb3 : ∀ e ∈ man.media, entryBounds e)
    (hb4 : man.app_icon_offset = none) (hb5 : man.app_icon_size = none)
    (hlen : (serializeManifest man).length < 2 ^ 63) :
    read_manifest_from_exe
      (P ++ serializeManifest man ++ toLe64 (serializeManifest man).length ++ MAGIC_BYTES_V2)
      = .ok man := by
  set mj := serializeManifest man with hmj
  set W := toLe64 mj.length with hWdef
  have hmjlen64 : mj.length < 2 ^ 64 := by
    have h2 : (2 : Nat) ^ 63 < 2 ^ 64 := by norm_num
    omega
  have hW : W.length = 8 := toLe64_length _
  have hM : MAGIC_BYTES_V2.length = 21 := rfl
  have hFlen : (P ++ mj ++ W ++ MAGIC_BYTES_V2).length = P.length + mj.length + 8 + 21 := by
    simp only [List.length_append, hW, hM]
  simp only [read_manifest_from_exe]
  rw [if_neg (show ¬ ((P ++ mj ++ W ++ MAGIC_BYTES_V2).length < MAGIC_BYTES_V2.length) from by
    omega)]
  rw [if_neg (not_not_intro (drop_tail_exact (P ++ mj ++ W) MAGIC_BYTES_V2
    MAGIC_BYTES_V2.length rfl))]
  rw [if_neg (show ¬ ((P ++ mj ++ W ++ MAGIC_BYTES_V2).length < MAGIC_BYTES_V2.length + 8) from by
    omega)]
  rw [window_before_tail (P ++ mj) W MAGIC_BYTES_V2 hW]
  have hfe : fromLe64 W = mj.length := by
    rw [hWdef]
    exact fromLe64_toLe64 _ hmjlen64
  rw [hfe, i64ofU64, if_pos hlen]
  rw [if_neg (show ¬ (((P ++ mj ++ W ++ MAGIC_BYTES_V2).length : Int)
      - (MAGIC_BYTES_V2.length : Int) - 8 - (mj.length : Int) < 0) from by omega)]
  rw [show (((P ++ mj ++ W ++ MAGIC_BYTES_V2).length : Int)
      - (MAGIC_BYTES_V2.length : Int) - 8 - (mj.length : Int)).toNat = P.length from by omega]
  rw [if_pos (show P.length + mj.length ≤ (P ++ mj ++ W ++ MAGIC_BYTES_V2).length from by omega)]
  rw [show ((P ++ mj ++ W ++ MAGIC_BYTES_V2).drop P.length).take mj.length = mj from by
    rw [show P ++ mj ++ W ++ MAGIC_BYTES_V2 = P ++ (mj ++ (W ++ MAGIC_BYTES_V2)) from by simp,
      slice_middle]]
  rw [deserializeManifest_serializeManifest man hb1 hb2 hb3 hb4 hb5]

/-! ### The writer loop -/

/-- Relation between a manifest entry produced by the writer loop started at
`off` with appended bytes `B`, and the media descriptor it came from. -/
def EntryMatches (fs : MediaFS) (off : Nat) (B : List Byte)
    (e : MediaManifestEntry) (m : MediaBuildInfo) : Prop :=
  ∃ c, fs m.file_path = .readable c ∧
    e.id = m.id ∧ e.name = m.name ∧ e.mime_type = m.mime_type ∧ e.size = c.length ∧
    off ≤ e.offset ∧ e.offset + c.length ≤ off + B.length ∧
    (B.drop (e.offset - off)).take e.size = c

theorem appendMediaLoop_spec (fs : MediaFS) :
    ∀ (media : List MediaBuildInfo) (off : Nat),
    (∀ m ∈ media, fs m.file_path ≠ .unreadable) →
    ∃ B E,
      appendMediaLoop fs media off = (B, .ok (E, off + B.length)) ∧
      List.Forall₂ (EntryMatches fs off B)
        E (media.filter fun m => srcExists (fs m.file_path)) ∧
      chainedB off E (off + B.length) = true := by
  intro media
  induction media with
  | nil =>
    intro off _
    exact ⟨[], [], by simp [appendMediaLoop], by simp, by simp [chainedB]⟩
  | cons m rest ih =>
    intro off hall
    cases hfs : fs m.file_path with
    | unreadable => exact absurd hfs (hall m (by simp))
    | missing =>
      obtain ⟨B, E, h1, h2, h3⟩ := ih off (fun x hx => hall x (by simp [hx]))
      refine ⟨B, E, ?_, ?_, h3⟩
      · simp [appendMediaLoop, hfs, h1]
      · simpa [List.filter_cons, hfs, srcExists] using h2
    | readable c =>
      obtain ⟨B, E, h1, h2, h3⟩ := ih (off + c.length) (fun x hx => hall x (by simp [hx]))
      refine ⟨c ++ B, ⟨m.id, m.name, m.mime_type, off, c.length⟩ :: E, ?_, ?_, ?_⟩
      · simp [appendMediaLoop, hfs, h1, Except.map, List.length_append, Nat.add_assoc]
      · rw [List.filter_cons, if_pos (show srcExists (fs m.file_path) = true from by
          simp [hfs, srcExists])]
        constructor
        · refine ⟨c, hfs, rfl, rfl, rfl, rfl, le_refl _, ?_, ?_⟩
          · simp [List.length_append]
          · simp [List.take_left' rfl]
        · refine h2.imp ?_
          intro e x hex
          obtain ⟨c', hc', hid, hname, hmime, hsize, hlo, hhi, hslice⟩ := hex
          refine ⟨c', hc', hid, hname, hmime, hsize, by omega, ?_, ?_⟩
          · simp [List.length_append]
            omega
          · rw [drop_append_right c B (e.offset - off) (by omega)]
            rw [show e.offset - off - c.length = e.offset - (off + c.length) from by omega]
            exact hslice
      · simp only [chainedB, List.length_append]
        rw [show off + (c.length + B.length) = off + c.length + B.length from by omega]
        simp [h3]

/-! ### Lookup, failure, and truncation helpers -/

theorem find_matching_of_nodup {R : MediaManifestEntry → MediaBuildInfo → Prop}
    (hid : ∀ e m, R e m → e.id = m.id)
    {E : List MediaManifestEntry} {ms : List MediaBuildInfo}
    (h : List.Forall₂ R E ms) :
    (ms.map (·.id)).Nodup → ∀ m ∈ ms,
      ∃ e, E.find? (fun e => decide (e.id = m.id)) = some e ∧ R e m := by
  induction h with
  | nil => intro _ m hm; cases hm
  | @cons e m0 E' ms' hR hF ih =>
    intro hnodup m hm
    rcases List.mem_cons.mp hm with hm0 | hm'
    · subst hm0
      exact ⟨e, List.find?_cons_of_pos _ (by simp [hid e m hR]), hR⟩
    · have hmem : m.id ∈ ms'.map (·.id) := List.mem_map_of_mem _ hm'
      have hn := List.nodup_cons.mp hnodup
      have hne : e.id ≠ m.id := by
        rw [hid e m0 hR]
        intro heq
        apply hn.1
        simpa [heq] using hmem
      obtain ⟨e', he', hR'⟩ := ih hn.2 m hm'
      exact ⟨e', by rw [List.find?_cons_of_neg _ (by simp [hne])]; exact he', hR'⟩

theorem appendMediaLoop_err (fs : MediaFS) (m : MediaBuildInfo) (post : List MediaBuildInfo)
    (hm : fs m.file_path = .unreadable) :
    ∀ (pre : List MediaBuildInfo) (off : Nat), (∀ p ∈ pre, fs p.file_path ≠ .unreadable) →
    appendMediaLoop fs (pre ++ m :: post) off
      = ((appendMediaLoop fs pre off).1, .error .sourceReadFailed) := by
  intro pre
  induction pre with
  | nil =>
    intro off _
    simp [appendMediaLoop, hm]
  | cons p pre ih =>
    intro off hall
    cases hfs : fs p.file_path with
    | unreadable => exact absurd hfs (hall p (by simp))
    | missing =>
      simp [appendMediaLoop, hfs, ih off (fun x hx => hall x (by simp [hx]))]
    | readable c =>
      simp [appendMediaLoop, hfs, ih (off + c.length) (fun x hx => hall x (by simp [hx])),
        Except.map]

/-- A successful V2 manifest read implies the file ends with the V2 marker. -/
theorem read_manifest_ok_suffix (file : List Byte) (man : BuildManifest)
    (h : read_manifest_from_exe file = .ok man) : MAGIC_BYTES_V2 <:+ file := by
  by_cases h21 : file.length < MAGIC_BYTES_V2.length
  · simp only [read_manifest_from_exe, if_pos h21] at h
    exact absurd h (by simp)
  · by_cases hmk : file.drop (file.length - MAGIC_BYTES_V2.length) = MAGIC_BYTES_V2
    · rw [← hmk]
      exact List.drop_suffix _ _
    · simp only [read_manifest_from_exe, if_neg h21, if_pos hmk] at h
      exact absurd h (by simp)

/-- The last 21 bytes of a 1-byte-truncated trailer: one byte of the length
field followed by the first 20 marker bytes. -/
theorem truncated_window (P W M : List Byte) (hW : W.length = 8) (hM : M.length = 21)
    (hMne : M ≠ []) :
    ((P ++ W ++ M).dropLast).drop ((P ++ W ++ M).dropLast.length - 21)
      = W.drop 7 ++ M.dropLast := by
  have h1 : P ++ W ++ M = (P ++ W) ++ M := by simp
  have h2 : (P ++ W ++ M).dropLast = P ++ (W ++ M.dropLast) := by
    rw [h1, List.dropLast_append_of_ne_nil _ hMne]
    simp
  have hlen : (P ++ W ++ M).dropLast.length = P.length + 28 := by
    rw [h2]
    simp [List.length_append, hW]
    omega
  rw [hlen, h2]
  rw [show P.length + 28 - 21 = P.length + 7 from by omega]
  rw [show (P ++ (W ++ M.dropLast)).drop (P.length + 7) = (W ++ M.dropLast).drop 7 from
    List.drop_append 7]
  rw [List.drop_append_of_le_length (by omega)]

theorem toLe64_drop7 (n : Nat) : (toLe64 n).drop 7 = [byte (n / 256 ^ 7)] := rfl

theorem cons_take20_ne_v2 (w : Byte) : w :: MAGIC_BYTES_V2.dropLast ≠ MAGIC_BYTES_V2 := by
  intro h
  have := congrArg List.tail h
  simp only [List.tail_cons] at this
  exact absurd this (by decide)

theorem cons_take20_ne_v1 (w : Byte) : w :: MAGIC_BYTES_V2.dropLast ≠ MAGIC_BYTES := by
  intro h
  have := congrArg List.tail h
  simp only [List.tail_cons] at this
  exact absurd this (by decide)

theorem forall₂_mem_left {α β : Type} {R : α → β → Prop} {l1 : List α} {l2 : List β}
    (h : List.Forall₂ R l1 l2) {a : α} (ha : a ∈ l1) : ∃ b, b ∈ l2 ∧ R a b := by
  induction h with
  | nil => cases ha
  | @cons x y l1' l2' hR hF ih =>
    rcases List.mem_cons.mp ha with h1 | h1
    · exact ⟨y, by simp, h1 ▸ hR⟩
    · obtain ⟨b, hb, hRb⟩ := ih h1
      exact ⟨b, by simp [hb], hRb⟩

theorem find?_append_first (p : MediaManifestEntry → Bool) (A : List MediaManifestEntry)
    (e : MediaManifestEntry) (B : List MediaManifestEntry)
    (hA : ∀ a ∈ A, p a = false) (he : p e = true) :
    (A ++ e :: B).find? p = some e := by
  induction A with
  | nil => simpa using List.find?_cons_of_pos _ he
  | cons a A ih =>
    rw [List.cons_append, List.find?_cons_of_neg _ (by simp [hA a (by simp)])]
    exact ih (fun x hx => hA x (by simp [hx]))

/-- Whenever the media loop succeeds, the final offset is the start plus the
bytes written, the entries are chained without gaps, and the entry ids are
the ids of exactly the existing sources, in order. -/
theorem appendMediaLoop_ok_spec (fs : MediaFS) :
    ∀ (media : List MediaBuildInfo) (off : Nat) (B : List Byte)
      (E : List MediaManifestEntry) (fin : Nat),
    appendMediaLoop fs media off = (B, .ok (E, fin)) →
    fin = off + B.length ∧ chainedB off E fin = true ∧
    E.map (·.id) = (media.filter fun m => srcExists (fs m.file_path)).map (·.id) := by
  intro media
  induction media with
  | nil =>
    intro off B E fin h
    simp [appendMediaLoop] at h
    obtain ⟨hB, hE, hfin⟩ := h
    subst hB hE hfin
    simp [chainedB]
  | cons m rest ih =>
    intro off B E fin h
    cases hfs : fs m.file_path with
    | unreadable => simp [appendMediaLoop, hfs] at h
    | missing =>
      simp only [appendMediaLoop, hfs] at h
      have := ih off B E fin h
      simpa [List.filter_cons, hfs, srcExists] using this
    | readable c =>
      simp only [appendMediaLoop, hfs] at h
      rcases hp : appendMediaLoop fs rest (off + c.length) with ⟨B', r⟩
      rw [hp] at h
      cases r with
      | error e => simp [Except.map] at h
      | ok q =>
        obtain ⟨E', fin'⟩ := q
        rw [Prod.mk.injEq] at h
        obtain ⟨hB, h2⟩ := h
        simp only [Except.map, Except.ok.injEq, Prod.mk.injEq] at h2
        obtain ⟨hE, hfin⟩ := h2
        obtain ⟨hfin', hch, hids⟩ := ih (off + c.length) B' E' fin' hp
        subst hB hfin
        rw [← hE]
        refine ⟨by simp [List.length_append]; omega, ?_, ?_⟩
        · simp only [chainedB]
          rw [show fin' = off + c.length + B'.length from hfin']
          simp [hch, List.length_append]
          rw [← hfin']
          exact hch
        · rw [List.filter_cons, if_pos (by simp [hfs, srcExists])]
          simpa using hids

/-! ### Concrete inputs used by witnesses and counterexamples -/

/-- A filesystem with no media sources at all. -/
def cfsMissing : MediaFS := fun _ => SourceFile.missing

/-- A 29-byte file that is all V1 footer: an 8-byte length field encoding 30
followed by the V1 marker; the payload length exceeds the space before the
footer, so `payload_start` would be negative. -/
def fileC2 : List Byte := toLe64 30 ++ MAGIC_BYTES

/-! ### Claim theorems -/

/-- C2 (counterexample): two inputs satisfying the claim's premise (trailing
V1 marker, decoded length exceeding the space before the footer) on which
the reader does not fail with a CorruptFormat error.  On `fileC2` (length
field 30, 0 bytes before the footer) the wrapped start has the top bit set
and the OS-level seek fails; on a length field of `2^63 + 1` the wrapped
start is small, the seek succeeds, and the buffer allocation panics with
capacity overflow — in release builds too. -/
theorem claim_C2_counterexample :
    fileC2.drop (fileC2.length - MAGIC_BYTES.length) = MAGIC_BYTES ∧
    fromLe64 ((fileC2.drop (fileC2.length - MAGIC_BYTES.length - 8)).take 8) = 30 ∧
    fileC2.length - MAGIC_BYTES.length - 8 = 0 ∧
    read_data_from_exe fileC2 = .error .seekFailed ∧
    isCorruptFormat .seekFailed = false ∧
    read_data_from_exe (toLe64 (2 ^ 63 + 1) ++ MAGIC_BYTES) = .error .capacityOverflowPanic ∧
    isCorruptFormat .capacityOverflowPanic = false := by
  refine ⟨by decide, by decide, by decide, by decide, rfl, by decide, rfl⟩

/-- C2 (amended): whenever the V1 marker matches and the decoded length
exceeds `file_size - marker_len - 8`, there is no CorruptFormat check: the
`u64` subtraction wraps around (release semantics; a debug build already
panics on the underflow).  If the wrapped start has its top bit set — which
is always the case when the decoded length is below `2^63` — the OS seek,
whose offset parameter is an `i64`, fails and the reader returns the seek
I/O error; otherwise the decoded length is itself at least `2^63` and
`vec![0u8; data_len]` panics with capacity overflow, in release builds too.
Payload bytes are never returned, but no outcome is a CorruptFormat
error. -/
theorem claim_C2_wrapped_length_read_fails (file : List Byte)
    (hsize : MAGIC_BYTES.length + 8 ≤ file.length)
    (hmagic : file.drop (file.length - MAGIC_BYTES.length) = MAGIC_BYTES)
    (hlen : file.length - MAGIC_BYTES.length - 8
      < fromLe64 ((file.drop (file.length - MAGIC_BYTES.length - 8)).take 8)) :
    (read_data_from_exe file = .error .seekFailed ∧
      2 ^ 63 ≤ (file.length - MAGIC_BYTES.length - 8
        + (2 ^ 64 - (fromLe64 ((file.drop (file.length - MAGIC_BYTES.length - 8)).take 8))
          % 2 ^ 64)) % 2 ^ 64) ∨
    (read_data_from_exe file = .error .capacityOverflowPanic ∧
      2 ^ 63 ≤ fromLe64 ((file.drop (file.length - MAGIC_BYTES.length - 8)).take 8)) := by
  have hM : MAGIC_BYTES.length = 21 := rfl
  set L := fromLe64 ((file.drop (file.length - MAGIC_BYTES.length - 8)).take 8) with hL
  have hL64 : L < 2 ^ 64 := fromLe64_lt _ (by simp [List.length_take])
  simp only [read_data_from_exe]
  rw [if_neg (show ¬ (file.length < MAGIC_BYTES.length) from by omega)]
  rw [if_neg (not_not_intro hmagic)]
  rw [if_neg (show ¬ (file.length < MAGIC_BYTES.length + 8) from by omega)]
  by_cases hds : 2 ^ 63 ≤ (file.length - MAGIC_BYTES.length - 8 + (2 ^ 64 - L % 2 ^ 64)) % 2 ^ 64
  · left
    rw [if_pos hds]
    exact ⟨rfl, hds⟩
  · right
    have hLbig : 2 ^ 63 ≤ L := by omega
    rw [if_neg hds, if_pos hLbig]
    exact ⟨rfl, hLbig⟩

/-- C2 (witness): the amended theorem applied to an 8-byte length field
encoding 1 followed by the bare V1 marker (the wrapped start is
`2^64 - 1`, so the seek disjunct holds there). -/
theorem claim_C2_witness :
    (read_data_from_exe (toLe64 1 ++ MAGIC_BYTES) = .error .seekFailed ∧
      2 ^ 63 ≤ ((toLe64 1 ++ MAGIC_BYTES).length - MAGIC_BYTES.length - 8
        + (2 ^ 64 - (fromLe64 (((toLe64 1 ++ MAGIC_BYTES).drop
            ((toLe64 1 ++ MAGIC_BYTES).length - MAGIC_BYTES.length - 8)).take 8))
          % 2 ^ 64)) % 2 ^ 64) ∨
    (read_data_from_exe (toLe64 1 ++ MAGIC_BYTES) = .error .capacityOverflowPanic ∧
      2 ^ 63 ≤ fromLe64 (((toLe64 1 ++ MAGIC_BYTES).drop
        ((toLe64 1 ++ MAGIC_BYTES).length - MAGIC_BYTES.length - 8)).take 8)) :=
  claim_C2_wrapped_length_read_fails (toLe64 1 ++ MAGIC_BYTES) (by decide) (by decide) (by decide)

/-- C8: both writers are strictly appending.  The V1 writer leaves every
byte below the original end of file unchanged and grows the file by exactly
`len(payload) + 8 + marker_len`; the V2 writer leaves the original prefix
unchanged whether the operation succeeds or fails. -/
theorem claim_C8_strict_append (file data orig proj : List Byte) (fs : MediaFS)
    (media : List MediaBuildInfo) :
    (append_data_to_exe file data).take file.length = file ∧
    (append_data_to_exe file data).length
      = file.length + (data.length + 8 + MAGIC_BYTES.length) ∧
    ((append_binary_data_v2 fs orig proj media).2).take orig.length = orig := by
  refine ⟨?_, ?_, ?_⟩
  · rw [show append_data_to_exe file data
        = file ++ (data ++ (toLe64 data.length ++ MAGIC_BYTES)) from by
      simp [append_data_to_exe]]
    exact List.take_left _ _
  · simp [append_data_to_exe, List.length_append, toLe64_length]
    omega
  · rcases hp : appendMediaLoop fs media orig.length with ⟨B, r⟩
    cases r with
    | error e =>
      rw [show (append_binary_data_v2 fs orig proj media).2 = orig ++ B from by
        simp [append_binary_data_v2, hp]]
      exact List.take_left _ _
    | ok q =>
      rw [show (append_binary_data_v2 fs orig proj media).2
          = orig ++ (B ++ (proj ++ (serializeManifest ⟨q.2, proj.length, q.1, none, none⟩
            ++ (toLe64 (serializeManifest ⟨q.2, proj.length, q.1, none, none⟩).length
              ++ MAGIC_BYTES_V2)))) from by
        simp [append_binary_data_v2, hp]]
      exact List.take_left _ _

/-- C7: truncating any completed V2 container by one byte makes both format
checks fail with their marker-mismatch (`FormatNotFound`) errors: the new
last 21 bytes are one length-field byte followed by the first 20 marker
bytes, which match neither marker, so no read of wrong data can occur. -/
theorem claim_C7_truncation_safety (fs : MediaFS) (orig proj : List Byte)
    (media : List MediaBuildInfo) (F : List Byte)
    (h : append_binary_data_v2 fs orig proj media = (.ok (), F)) :
    read_manifest_from_exe F.dropLast = .error .v2MarkerMismatch ∧
    read_data_from_exe F.dropLast = .error .v1MarkerMismatch ∧
    isFormatNotFound .v2MarkerMismatch = true ∧
    isFormatNotFound .v1MarkerMismatch = true := by
  rcases hp : appendMediaLoop fs media orig.length with ⟨B, r⟩
  cases r with
  | error e =>
    rw [append_binary_data_v2] at h
    rw [hp] at h
    simp at h
  | ok q =>
    rw [append_binary_data_v2] at h
    rw [hp] at h
    simp only [Prod.mk.injEq] at h
    have hF := h.2
    set man : BuildManifest := ⟨q.2, proj.length, q.1, none, none⟩ with hman
    set P : List Byte := orig ++ B ++ proj ++ serializeManifest man with hP
    set W : List Byte := toLe64 (serializeManifest man).length with hW
    have hWlen : W.length = 8 := toLe64_length _
    have hMne : MAGIC_BYTES_V2 ≠ ([] : List Byte) := by decide
    have htw := truncated_window P W MAGIC_BYTES_V2 hWlen rfl hMne
    have hGlen : ((P ++ W ++ MAGIC_BYTES_V2).dropLast).length = P.length + 28 := by
      simp [List.length_dropLast, List.length_append, hWlen, magic_v2_length]
    have hne2 : ((P ++ W ++ MAGIC_BYTES_V2).dropLast).drop
        (((P ++ W ++ MAGIC_BYTES_V2).dropLast).length - 21) ≠ MAGIC_BYTES_V2 := by
      rw [htw, hW, toLe64_drop7]
      simpa using cons_take20_ne_v2 (byte ((serializeManifest man).length / 256 ^ 7))
    have hne1 : ((P ++ W ++ MAGIC_BYTES_V2).dropLast).drop
        (((P ++ W ++ MAGIC_BYTES_V2).dropLast).length - 21) ≠ MAGIC_BYTES := by
      rw [htw, hW, toLe64_drop7]
      simpa using cons_take20_ne_v1 (byte ((serializeManifest man).length / 256 ^ 7))
    have hFval : F = P ++ W ++ MAGIC_BYTES_V2 := by
      rw [← hF, hP, hW]
    subst hFval
    refine ⟨?_, ?_, rfl, rfl⟩
    · simp only [read_manifest_from_exe, magic_v2_length]
      rw [if_neg (show ¬ (((P ++ W ++ MAGIC_BYTES_V2).dropLast).length < 21) from by omega)]
      rw [if_pos hne2]
    · simp only [read_data_from_exe, magic_length]
      rw [if_neg (show ¬ (((P ++ W ++ MAGIC_BYTES_V2).dropLast).length < 21) from by omega)]
      rw [if_pos hne1]

/-- C7 (witness): truncation of the concrete empty-media container. -/
theorem claim_C7_witness :
    read_manifest_from_exe ((append_binary_data_v2 cfsMissing [] [] []).2).dropLast
      = .error .v2MarkerMismatch ∧
    read_data_from_exe ((append_binary_data_v2 cfsMissing [] [] []).2).dropLast
      = .error .v1MarkerMismatch ∧
    isFormatNotFound .v2MarkerMismatch = true ∧
    isFormatNotFound .v1MarkerMismatch = true :=
  claim_C7_truncation_safety cfsMissing [] [] []
    ((append_binary_data_v2 cfsMissing [] [] []).2) (by decide)

/-- C9: asset lookup scans `manifest.media` with `find?` — the first entry
whose id matches wins; when no entry matches the result is the
`AssetNotFound` error.  The reader never mutates anything (it is a pure
function of the file bytes), so a failed lookup cannot affect a later one:
the third conjunct states that the result of any subsequent lookup is the
same expression, unconditionally. -/
theorem claim_C9_asset_lookup (exe : List Byte) (man : BuildManifest) (targetId : List Byte)
    (h : read_manifest_from_exe exe = .ok man) :
    ((∀ e ∈ man.media, e.id ≠ targetId) →
      read_embedded_media exe targetId = .error .assetNotFound) ∧
    (∀ A e B, man.media = A ++ e :: B → e.id = targetId → (∀ a ∈ A, a.id ≠ targetId) →
      e.offset + e.size ≤ exe.length →
      read_embedded_media exe targetId = .ok ((exe.drop e.offset).take e.size)) ∧
    (∀ id2, read_embedded_media exe targetId = .error .assetNotFound →
      read_embedded_media exe id2 = read_embedded_media exe id2) := by
  refine ⟨?_, ?_, fun _ _ => rfl⟩
  · intro hall
    have hfind : man.media.find? (fun e => decide (e.id = targetId)) = none :=
      List.find?_eq_none.mpr (fun e he => by simp [hall e he])
    simp [read_embedded_media, h, hfind]
  · intro A e B hsplit hid hA hsz
    have hfind : man.media.find? (fun e => decide (e.id = targetId)) = some e := by
      rw [hsplit]
      exact find?_append_first _ A e B (fun a ha => by simp [hA a ha]) (by simp [hid])
    simp [read_embedded_media, h, hfind, hsz]

/-- The manifest of the C9 witness container: one entry `a` at offset 0,
size 3. -/
def manC9 : BuildManifest := ⟨3, 0, [⟨strB "a", strB "a", strB "t", 0, 3⟩], none, none⟩

/-- The C9 witness container: 3 payload bytes, then a valid V2 trailer whose
manifest is `manC9`. -/
def exeC9 : List Byte :=
  strB "XYZ" ++ serializeManifest manC9
    ++ toLe64 (serializeManifest manC9).length ++ MAGIC_BYTES_V2

/-- C9 (witness): lookup of an absent id on a concrete valid container. -/
theorem claim_C9_witness :
    ((∀ e ∈ manC9.media, e.id ≠ strB "zz") →
      read_embedded_media exeC9 (strB "zz") = .error .assetNotFound) ∧
    (∀ A e B, manC9.media = A ++ e :: B → e.id = strB "zz" →
      (∀ a ∈ A, a.id ≠ strB "zz") → e.offset + e.size ≤ exeC9.length →
      read_embedded_media exeC9 (strB "zz") = .ok ((exeC9.drop e.offset).take e.size)) ∧
    (∀ id2, read_embedded_media exeC9 (strB "zz") = .error .assetNotFound →
      read_embedded_media exeC9 id2 = read_embedded_media exeC9 id2) :=
  claim_C9_asset_lookup exeC9 manC9 (strB "zz") (by decide)

/-- C10: during a V2 embed, an existing but unreadable media source aborts
the whole operation with the source-read error; the file is left as the
original plus exactly the blobs of the sources before the failing one — the
project JSON, manifest, length field and V2 marker are never appended.
Consequently, unless those blob bytes themselves happen to end in the V2
marker, the partial file cannot pass the V2 format check. -/
theorem claim_C10_unreadable_source_aborts (fs : MediaFS) (orig proj : List Byte)
    (pre post : List MediaBuildInfo) (m : MediaBuildInfo)
    (hpre : ∀ p ∈ pre, fs p.file_path ≠ .unreadable)
    (hm : fs m.file_path = .unreadable) :
    (append_binary_data_v2 fs orig proj (pre ++ m :: post)).1 = .error .sourceReadFailed ∧
    (append_binary_data_v2 fs orig proj (pre ++ m :: post)).2
      = orig ++ (appendMediaLoop fs pre orig.length).1 ∧
    (¬ (MAGIC_BYTES_V2 <:+ (append_binary_data_v2 fs orig proj (pre ++ m :: post)).2) →
      ∀ man, read_manifest_from_exe
        ((append_binary_data_v2 fs orig proj (pre ++ m :: post)).2) ≠ .ok man) := by
  have hloop := appendMediaLoop_err fs m post hm pre orig.length hpre
  refine ⟨?_, ?_, ?_⟩
  · simp [append_binary_data_v2, hloop]
  · simp [append_binary_data_v2, hloop]
  · intro hnsuf man hok
    exact hnsuf (read_manifest_ok_suffix _ man hok)

/-- The media descriptor with an unreadable source used by the C10 witness. -/
def badMedia : MediaBuildInfo := ⟨strB "x", strB "x.png", strB "image/png", strB "/bad"⟩

/-- A filesystem where `/bad` exists but cannot be read. -/
def cfsBad : MediaFS := fun p => if p = strB "/bad" then .unreadable else .missing

/-- C10 (witness): the theorem applied to a one-element media list whose
only source is unreadable. -/
theorem claim_C10_witness :
    (append_binary_data_v2 cfsBad (strB "HOST") (strB "pj") ([] ++ badMedia :: [])).1
      = .error .sourceReadFailed ∧
    (append_binary_data_v2 cfsBad (strB "HOST") (strB "pj") ([] ++ badMedia :: [])).2
      = strB "HOST" ++ (appendMediaLoop cfsBad [] (strB "HOST").length).1 ∧
    (¬ (MAGIC_BYTES_V2 <:+ (append_binary_data_v2 cfsBad (strB "HOST") (strB "pj")
        ([] ++ badMedia :: [])).2) →
      ∀ man, read_manifest_from_exe
        ((append_binary_data_v2 cfsBad (strB "HOST") (strB "pj") ([] ++ badMedia :: [])).2)
        ≠ .ok man) :=
  claim_C10_unreadable_source_aborts cfsBad (strB "HOST") (strB "pj") [] [] badMedia
    (by simp) (by decide)

/-- C5: when every media source is either readable or missing (none
unreadable), the V2 embed succeeds; the written manifest's entries
correspond, in order, to exactly the media whose sources exist — missing
sources are silently skipped — and every remaining entry's absolute
offset/size addresses exactly its own source content in the output file. -/
theorem claim_C5_missing_source_tolerance (fs : MediaFS) (orig proj : List Byte)
    (media : List MediaBuildInfo)
    (hall : ∀ m ∈ media, fs m.file_path ≠ .unreadable) :
    ∃ (F B : List Byte) (E : List MediaManifestEntry),
      append_binary_data_v2 fs orig proj media = (.ok (), F) ∧
      writtenManifest fs orig proj media
        = some ⟨orig.length + B.length, proj.length, E, none, none⟩ ∧
      List.Forall₂ (fun (e : MediaManifestEntry) (m : MediaBuildInfo) =>
          e.id = m.id ∧ e.name = m.name ∧ e.mime_type = m.mime_type ∧
          ∃ c, fs m.file_path = .readable c ∧ e.size = c.length ∧
            (F.drop e.offset).take e.size = c)
        E (media.filter fun m => srcExists (fs m.file_path)) := by
  obtain ⟨B, E, h1, h2, h3⟩ := appendMediaLoop_spec fs media orig.length hall
  refine ⟨orig ++ B ++ proj
      ++ serializeManifest ⟨orig.length + B.length, proj.length, E, none, none⟩
      ++ toLe64 (serializeManifest ⟨orig.length + B.length, proj.length, E, none, none⟩).length
      ++ MAGIC_BYTES_V2, B, E, ?_, ?_, ?_⟩
  · simp [append_binary_data_v2, h1]
  · simp [writtenManifest, h1]
  · refine h2.imp ?_
    intro e m hem
    obtain ⟨c, hc, hid, hname, hmime, hsize, hlo, hhi, hslice⟩ := hem
    refine ⟨hid, hname, hmime, c, hc, hsize, ?_⟩
    rw [show orig ++ B ++ proj
        ++ serializeManifest ⟨orig.length + B.length, proj.length, E, none, none⟩
        ++ toLe64 (serializeManifest ⟨orig.length + B.length, proj.length, E, none, none⟩).length
        ++ MAGIC_BYTES_V2
      = (orig ++ B) ++ (proj
        ++ (serializeManifest ⟨orig.length + B.length, proj.length, E, none, none⟩
        ++ (toLe64 (serializeManifest ⟨orig.length + B.length, proj.length, E, none, none⟩).length
        ++ MAGIC_BYTES_V2))) from by simp]
    rw [slice_append_left (orig ++ B) _ e.offset e.size (by
      simp only [List.length_append]
      omega)]
    rw [drop_append_right orig B e.offset (by omega)]
    exact hslice

/-- Filesystem for the C5 witness: `/ok` is readable, everything else
(including `/gone`) is missing. -/
def cfsC5 : MediaFS := fun p => if p = strB "/ok" then .readable (strB "DATA") else .missing

def mediaC5 : List MediaBuildInfo :=
  [⟨strB "gone", strB "gone.png", strB "image/png", strB "/gone"⟩,
   ⟨strB "ok", strB "ok.png", strB "image/png", strB "/ok"⟩]

/-- C5 (witness): one missing and one readable source. -/
theorem claim_C5_witness :
    ∃ (F B : List Byte) (E : List MediaManifestEntry),
      append_binary_data_v2 cfsC5 (strB "HOST") (strB "pj") mediaC5 = (.ok (), F) ∧
      writtenManifest cfsC5 (strB "HOST") (strB "pj") mediaC5
        = some ⟨(strB "HOST").length + B.length, (strB "pj").length, E, none, none⟩ ∧
      List.Forall₂ (fun (e : MediaManifestEntry) (m : MediaBuildInfo) =>
          e.id = m.id ∧ e.name = m.name ∧ e.mime_type = m.mime_type ∧
          ∃ c, cfsC5 m.file_path = .readable c ∧ e.size = c.length ∧
            (F.drop e.offset).take e.size = c)
        E (mediaC5.filter fun m => srcExists (cfsC5 m.file_path)) :=
  claim_C5_missing_source_tolerance cfsC5 (strB "HOST") (strB "pj") mediaC5 (by decide)

/-- C6: every manifest the V2 writer produces is contiguous: its entries
carry absolute offsets, the first entry starts at the host file's original
size, each entry's `offset + size` is the next entry's offset, and the last
entry's `offset + size` is `project_json_offset` (all stated by `chainedB`
from `orig.length` to `man.project_json_offset`); the entry ids are the ids
of exactly the existing sources, in caller order. -/
theorem claim_C6_manifest_contiguity (fs : MediaFS) (orig proj : List Byte)
    (media : List MediaBuildInfo) (man : BuildManifest)
    (h : writtenManifest fs orig proj media = some man) :
    chainedB orig.length man.media man.project_json_offset = true ∧
    man.media.map (·.id) = (media.filter fun m => srcExists (fs m.file_path)).map (·.id) := by
  rw [writtenManifest] at h
  rcases hp : appendMediaLoop fs media orig.length with ⟨B, r⟩
  rw [hp] at h
  cases r with
  | error e => simp at h
  | ok q =>
    obtain ⟨E, fin⟩ := q
    simp only [Option.some.injEq] at h
    obtain ⟨hfin, hch, hids⟩ := appendMediaLoop_ok_spec fs media orig.length B E fin hp
    subst h
    exact ⟨hch, hids⟩

/-- Filesystem for the C6 witness. -/
def cfsC6 : MediaFS := fun p => if p = strB "/a" then .readable (strB "QQ") else .missing

def mediaC6 : List MediaBuildInfo := [⟨strB "a", strB "a.png", strB "text/a", strB "/a"⟩]

/-- C6 (witness): the manifest written for a 2-byte host and one 2-byte
source is chained from offset 2 to `project_json_offset = 4`. -/
theorem claim_C6_witness :
    chainedB (strB "12").length
      (⟨4, 0, [⟨strB "a", strB "a.png", strB "text/a", 2, 2⟩], none, none⟩ : BuildManifest).media
      (⟨4, 0, [⟨strB "a", strB "a.png", strB "text/a", 2, 2⟩], none, none⟩ :
        BuildManifest).project_json_offset = true ∧
    (⟨4, 0, [⟨strB "a", strB "a.png", strB "text/a", 2, 2⟩], none, none⟩ :
        BuildManifest).media.map (·.id)
      = (mediaC6.filter fun m => srcExists (cfsC6 m.file_path)).map (·.id) :=
  claim_C6_manifest_contiguity cfsC6 (strB "12") []
    mediaC6 ⟨4, 0, [⟨strB "a", strB "a.png", strB "text/a", 2, 2⟩], none, none⟩ (by decide)

/-- C3: round-trip.  For every project JSON (a Rust `String`, i.e. valid
UTF-8 bytes) and every list of media descriptors with pairwise-distinct ids
(the spec's "set" of blobs; callers must ensure uniqueness) whose source
files all exist and are readable, after the V2 writer embeds them into any
host file (of realistic size, below `2^63` bytes — offsets are `u64`/`i64`
in the format), reading the project back returns the original bytes and
reading each id returns its source content byte-identically. -/
theorem claim_C3_roundtrip (fs : MediaFS) (orig proj : List Byte)
    (media : List MediaBuildInfo) (loose : Option (List Byte)) (F : List Byte)
    (hexist : ∀ m ∈ media, ∃ c, fs m.file_path = .readable c)
    (hnodup : (media.map (·.id)).Nodup)
    (hutf : isValidUtf8 proj = true)
    (happ : append_binary_data_v2 fs orig proj media = (.ok (), F))
    (hsz : F.length < 2 ^ 63) :
    read_project_file_v2 F loose = .ok proj ∧
    ∀ m ∈ media, ∀ c, fs m.file_path = .readable c →
      read_embedded_media F m.id = .ok c := by
  have hall : ∀ m ∈ media, fs m.file_path ≠ .unreadable := by
    intro m hm
    obtain ⟨c, hc⟩ := hexist m hm
    simp [hc]
  obtain ⟨B, E, h1, h2, h3⟩ := appendMediaLoop_spec fs media orig.length hall
  have hF : F = orig ++ B ++ proj
      ++ serializeManifest ⟨orig.length + B.length, proj.length, E, none, none⟩
      ++ toLe64 (serializeManifest ⟨orig.length + B.length, proj.length, E, none, none⟩).length
      ++ MAGIC_BYTES_V2 := by
    have h' := happ
    simp only [append_binary_data_v2, h1, Prod.mk.injEq] at h'
    exact h'.2.symm
  subst hF
  set man : BuildManifest := ⟨orig.length + B.length, proj.length, E, none, none⟩ with hman
  set mj : List Byte := serializeManifest man with hmj
  have hfilter : media.filter (fun m => srcExists (fs m.file_path)) = media :=
    List.filter_eq_self.mpr (fun m hm => by
      obtain ⟨c, hc⟩ := hexist m hm
      simp [hc, srcExists])
  rw [hfilter] at h2
  have hFlen : (orig ++ B ++ proj ++ mj ++ toLe64 mj.length ++ MAGIC_BYTES_V2).length
      = orig.length + B.length + proj.length + mj.length + 29 := by
    simp [List.length_append, toLe64_length, magic_v2_length]
    omega
  rw [hFlen] at hsz
  have hb1 : man.project_json_offset < 2 ^ 64 := by
    simp only [hman]
    omega
  have hb2 : man.project_json_size < 2 ^ 64 := by
    simp only [hman]
    omega
  have hb3 : ∀ e ∈ man.media, entryBounds e := by
    intro e he
    obtain ⟨m, hmmem, hEM⟩ := forall₂_mem_left h2 (by simpa [hman] using he)
    obtain ⟨c, hc, hid, hname, hmime, hsize, hlo, hhi, hslice⟩ := hEM
    constructor <;> omega
  have hmjbound : mj.length < 2 ^ 63 := by omega
  have hmanread := read_manifest_append (orig ++ B ++ proj) man hb1 hb2 hb3 rfl rfl hmjbound
  rw [← hmj] at hmanread
  constructor
  · simp only [read_project_file_v2]
    rw [hmanread]
    split
    case h_2 a hmatch => exact absurd hmatch (by simp)
    case h_1 manifest hmatch =>
    injection hmatch with hmm
    subst hmm
    rw [if_pos (show man.project_json_offset + man.project_json_size
        ≤ (orig ++ B ++ proj ++ mj ++ toLe64 mj.length ++ MAGIC_BYTES_V2).length from by
      simp only [hman]
      omega)]
    rw [show ((orig ++ B ++ proj ++ mj ++ toLe64 mj.length ++ MAGIC_BYTES_V2).drop
          man.project_json_offset).take man.project_json_size = proj from by
      rw [show orig ++ B ++ proj ++ mj ++ toLe64 mj.length ++ MAGIC_BYTES_V2
          = (orig ++ B) ++ (proj ++ (mj ++ (toLe64 mj.length ++ MAGIC_BYTES_V2))) from by simp]
      rw [show man.project_json_offset = (orig ++ B).length from by
        simp [hman, List.length_append]]
      rw [show man.project_json_size = proj.length from rfl]
      exact slice_middle _ _ _]
    rw [if_pos hutf]
  · intro m hm c hc
    have hid : ∀ (e : MediaManifestEntry) (x : MediaBuildInfo),
        EntryMatches fs orig.length B e x → e.id = x.id := by
      intro e x hx
      obtain ⟨c', _, hid, _⟩ := hx
      exact hid
    obtain ⟨e, hfind, hEM⟩ := find_matching_of_nodup hid h2 hnodup m hm
    obtain ⟨c', hc', hide, hname, hmime, hsize, hlo, hhi, hslice⟩ := hEM
    have hcc : c' = c := by
      rw [hc] at hc'
      exact (SourceFile.readable.injEq _ _ ▸ hc').symm
    subst hcc
    simp only [read_embedded_media]
    rw [hmanread]
    split
    case h_1 a hmatch => exact absurd hmatch (by simp)
    case h_2 manifest hmatch =>
    injection hmatch with hmm
    subst hmm
    rw [show man.media.find? (fun x => decide (x.id = m.id)) = some e from hfind]
    split
    case h_1 hmatch2 => exact absurd hmatch2 (by simp)
    case h_2 entry hmatch2 =>
    injection hmatch2 with hee
    subst hee
    rw [if_pos (show e.offset + e.size
        ≤ (orig ++ B ++ proj ++ mj ++ toLe64 mj.length ++ MAGIC_BYTES_V2).length from by
      rw [hFlen]
      omega)]
    rw [show ((orig ++ B ++ proj ++ mj ++ toLe64 mj.length ++ MAGIC_BYTES_V2).drop
          e.offset).take e.size = c' from by
      rw [show orig ++ B ++ proj ++ mj ++ toLe64 mj.length ++ MAGIC_BYTES_V2
          = (orig ++ B) ++ (proj ++ (mj ++ (toLe64 mj.length ++ MAGIC_BYTES_V2))) from by simp]
      rw [slice_append_left (orig ++ B) _ e.offset e.size (by
        simp only [List.length_append]
        omega)]
      rw [drop_append_right orig B e.offset (by omega)]
      exact hslice]

/-- C3 (witness): a 2-byte host, project `pj`, and one 2-byte media blob. -/
theorem claim_C3_witness :
    read_project_file_v2 (append_binary_data_v2 cfsC6 (strB "12") (strB "pj") mediaC6).2 none
      = .ok (strB "pj") ∧
    ∀ m ∈ mediaC6, ∀ c, cfsC6 m.file_path = .readable c →
      read_embedded_media (append_binary_data_v2 cfsC6 (strB "12") (strB "pj") mediaC6).2 m.id
        = .ok c :=
  claim_C3_roundtrip cfsC6 (strB "12") (strB "pj") mediaC6 none
    ((append_binary_data_v2 cfsC6 (strB "12") (strB "pj") mediaC6).2)
    (by
      intro m hm
      simp [mediaC6] at hm
      subst hm
      exact ⟨strB "QQ", rfl⟩)
    (by decide) (by decide) (by decide) (by decide)

/-! ### C4: the concrete end-to-end scenario -/

/-- Filesystem for the C4 scenario: `/img1.png` holds the 3 bytes `ABC`. -/
def fsC4 : MediaFS := fun p => if p = strB "/img1.png" then .readable (strB "ABC") else .missing

/-- The 100-byte dummy host executable. -/
def origC4 : List Byte := List.replicate 100 (byte 0)

/-- The project JSON `{"v":1}` (7 bytes). -/
def projC4 : List Byte := [byte 123] ++ strB "\"v\":1" ++ [byte 125]

def mediaC4 : List MediaBuildInfo :=
  [⟨strB "img1", strB "img1.png", strB "image/png", strB "/img1.png"⟩]

/-- The manifest the writer produces for the C4 scenario: blob at absolute
offset 100, size 3; project JSON at offset 103, size 7. -/
def manC4 : BuildManifest :=
  ⟨103, 7, [⟨strB "img1", strB "img1.png", strB "image/png", 100, 3⟩], none, none⟩

def mjC4 : List Byte := serializeManifest manC4

/-- C4: embedding `{"v":1}` with the single 3-byte media blob `ABC` into a
100-byte host yields exactly the layout blob / project JSON / manifest JSON /
8-byte little-endian manifest length / V2 marker, of total size
`100 + 3 + len(project_json) + len(manifest_json) + 8 + len(V2_MAGIC)`;
reading the project returns `{"v":1}`, reading asset `img1` returns `ABC`,
and reading asset `missing` fails with the AssetNotFound error. -/
theorem claim_C4_concrete_scenario :
    append_binary_data_v2 fsC4 origC4 projC4 mediaC4
      = (.ok (), origC4 ++ strB "ABC" ++ projC4 ++ mjC4 ++ toLe64 mjC4.length ++ MAGIC_BYTES_V2) ∧
    (append_binary_data_v2 fsC4 origC4 projC4 mediaC4).2.length
      = 100 + 3 + projC4.length + mjC4.length + 8 + MAGIC_BYTES_V2.length ∧
    read_project_file_v2 (append_binary_data_v2 fsC4 origC4 projC4 mediaC4).2 none
      = .ok projC4 ∧
    read_embedded_media (append_binary_data_v2 fsC4 origC4 projC4 mediaC4).2 (strB "img1")
      = .ok (strB "ABC") ∧
    read_embedded_media (append_binary_data_v2 fsC4 origC4 projC4 mediaC4).2 (strB "missing")
      = .error .assetNotFound := by
  refine ⟨by decide, by decide, by decide, by decide, by decide⟩

end TutorialMaker
